import Mathlib

/-!
Shallow embedding of the expense-tracker service in `src/main.py`.

The program stores expense rows in a single SQLite table `expenses`
(columns `id INTEGER PRIMARY KEY AUTOINCREMENT`, `date TEXT`, `amount REAL`,
`category TEXT`, `subcategory TEXT DEFAULT ''`, `note TEXT DEFAULT ''`) and
exposes four operations: `add_expense`, `list_expenses`, `summarize`,
`debug_db_info`, each of which first runs the lazy initializer `ensure_db`.

We model the database as a pure state value:
* the table contents are a `List Row`;
* `AUTOINCREMENT` row ids are modelled by a `nextId` counter (SQLite's
  `AUTOINCREMENT` guarantees strictly increasing, never-reused ids, and
  `cur.lastrowid` returns the id just assigned);
* `REAL` amounts are modelled as rationals (`ℚ`) — the claims under study
  are about exact bookkeeping identities, not float rounding;
* `TEXT` dates are `String`s compared lexically (lexicographic order on the
  character list `String.data`), matching SQLite's binary comparison of
  `TEXT` values for the ASCII date strings the service handles;
* `ORDER BY` is modelled by a stable sort (`List.insertionSort`) with the
  total preorder the `ORDER BY` clause denotes — SQL fixes exactly the
  sortedness and stability properties, not the algorithm;
* the `CREATE TABLE IF NOT EXISTS` schema statement is modelled by an
  `Option` schema slot holding the column definitions, and the module-level
  `_db_initialized` flag by a `Bool` field;
* each tool returns the (possibly initialized) state together with its
  Python return value.
-/

namespace ExpenseTracker

/-- One row of the `expenses` table (`SELECT id, date, amount, category,
subcategory, note` order, as in `list_expenses`). -/
structure Row where
  id : Nat
  date : String
  amount : ℚ
  category : String
  subcategory : String
  note : String
deriving DecidableEq, Repr

/-- One column of a `CREATE TABLE` statement: name plus the rest of the
column definition text. -/
structure ColumnDef where
  name : String
  decl : String
deriving DecidableEq, Repr

/-- The column list of the `CREATE TABLE IF NOT EXISTS expenses (...)`
statement in `ensure_db`. -/
def expensesTableDef : List ColumnDef :=
  [⟨"id", "INTEGER PRIMARY KEY AUTOINCREMENT"⟩,
   ⟨"date", "TEXT NOT NULL"⟩,
   ⟨"amount", "REAL NOT NULL"⟩,
   ⟨"category", "TEXT NOT NULL"⟩,
   ⟨"subcategory", "TEXT DEFAULT ''"⟩,
   ⟨"note", "TEXT DEFAULT ''"⟩]

/-- Model of `DB_PATH = os.path.join(DATA_DIR, "expenses.db")` with `DATA_DIR = "/data"`. -/
def DB_PATH : String := "/data/expenses.db"

/-- The whole observable database state of the process. -/
structure DB where
  /-- the module-global `_db_initialized` flag -/
  dbInitialized : Bool
  /-- the `expenses` table definition, `none` when the table does not exist -/
  schema : Option (List ColumnDef)
  /-- the rows of the `expenses` table, in insertion order -/
  rows : List Row
  /-- the next id `AUTOINCREMENT` will assign -/
  nextId : Nat
deriving Repr

/-- The empty database: fresh process, no table, ids start at 1
(SQLite assigns 1 to the first row of an empty table). -/
def DB.empty : DB := ⟨false, none, [], 1⟩

/-- Model of `ensure_db`: returns immediately when `_db_initialized` is set; otherwise
runs `CREATE TABLE IF NOT EXISTS expenses (...)` (which leaves an existing
table untouched) and sets the flag. -/
def ensure_db (db : DB) : DB :=
  if db.dbInitialized then db
  else { db with
    schema := some (db.schema.getD expensesTableDef),
    dbInitialized := true }

/-- Model of `add_expense(date, amount, category, subcategory="", note="")`:
inserts one row and returns `cur.lastrowid` (the fresh id). -/
def add_expense (db : DB) (date : String) (amount : ℚ) (category : String)
    (subcategory : String) (note : String) : DB × Nat :=
  let db := ensure_db db
  let row : Row := ⟨db.nextId, date, amount, category, subcategory, note⟩
  ({ db with rows := db.rows ++ [row], nextId := db.nextId + 1 }, db.nextId)

/-- Lexical (bytewise) order on `TEXT` values: lexicographic order on the
character list. -/
def lexLE (a b : String) : Prop := a.data ≤ b.data

/-- Strict lexical order on `TEXT` values. -/
def lexLT (a b : String) : Prop := a.data < b.data

instance : DecidableRel lexLE := fun a b => by unfold lexLE; infer_instance

instance : DecidableRel lexLT := fun a b => by unfold lexLT; infer_instance

/-- Model of `date BETWEEN ? AND ?`: SQLite `BETWEEN` is inclusive on both ends,
comparing `TEXT` values lexically. -/
def inRange (start_date end_date : String) (r : Row) : Bool :=
  decide (lexLE start_date r.date) && decide (lexLE r.date end_date)

/-- The total preorder denoted by `ORDER BY date DESC, id DESC`: `r1` may
appear (weakly) before `r2`. -/
def rowLe (r1 r2 : Row) : Prop :=
  lexLT r2.date r1.date ∨ (r1.date = r2.date ∧ r2.id ≤ r1.id)

instance : DecidableRel rowLe := fun r1 r2 => by unfold rowLe; infer_instance

/-- Model of `list_expenses(start_date, end_date)`:
`SELECT ... WHERE date BETWEEN ? AND ? ORDER BY date DESC, id DESC`. -/
def list_expenses (db : DB) (start_date end_date : String) :
    DB × List Row :=
  let db := ensure_db db
  (db, (db.rows.filter (inRange start_date end_date)).insertionSort rowLe)

/-- Python truthiness of the `category: str = None` parameter, as tested by
`if category:` — `None` and the empty string are both falsy. -/
def categoryTruthy : Option String → Bool
  | none => false
  | some c => !(c == "")

/-- One output record of `summarize`:
`SELECT category, SUM(amount) AS total_amount, COUNT(*) AS count`. -/
structure Bucket where
  category : String
  total_amount : ℚ
  count : Nat
deriving DecidableEq, Repr

/-- The total preorder denoted by `ORDER BY total_amount DESC`. -/
def bucketLe (b1 b2 : Bucket) : Prop :=
  b2.total_amount ≤ b1.total_amount

instance : DecidableRel bucketLe := fun b1 b2 => by
  unfold bucketLe; infer_instance

/-- Model of `summarize(start_date, end_date, category=None)`: rows in the date range,
further restricted by `AND category = ?` exactly when `if category:` is
truthy, then `GROUP BY category ORDER BY total_amount DESC`. The groups are
formed in first-occurrence order before sorting (SQL leaves the order of
equal-total groups unspecified). -/
def summarize (db : DB) (start_date end_date : String)
    (category : Option String) : DB × List Bucket :=
  let db := ensure_db db
  let base := db.rows.filter (inRange start_date end_date)
  let matching :=
    if categoryTruthy category then
      base.filter (fun r => r.category == category.getD "")
    else base
  let cats := (matching.map (fun r => r.category)).dedup
  let buckets := cats.map (fun c =>
    let rs := matching.filter (fun r => r.category == c)
    Bucket.mk c ((rs.map (fun r => r.amount)).sum) rs.length)
  (db, buckets.insertionSort bucketLe)

/-- Return value of `debug_db_info`. -/
structure DebugInfo where
  db_path : String
  file_exists : Bool
  total_rows : Nat
deriving DecidableEq, Repr

/-- Model of `debug_db_info()`: reports `DB_PATH`, whether the database file exists
(it does once any connection has been opened, i.e. once the schema slot is
populated), and `SELECT COUNT(*) FROM expenses`. -/
def debug_db_info (db : DB) : DB × DebugInfo :=
  let db := ensure_db db
  (db, ⟨DB_PATH, db.schema.isSome, db.rows.length⟩)

/-- Well-formedness invariant maintained by the store: every stored id is
below the `AUTOINCREMENT` counter, and ids are pairwise distinct. -/
def WF (db : DB) : Prop :=
  (∀ r ∈ db.rows, r.id < db.nextId) ∧
    db.rows.Pairwise (fun r1 r2 => r1.id ≠ r2.id)

instance : DecidablePred WF := fun db => by
  unfold WF; infer_instance

/-! ### Order-theoretic facts about the `ORDER BY` preorders -/

instance : IsTotal Row rowLe := by
  constructor
  intro r1 r2
  rcases lt_trichotomy r1.date.data r2.date.data with h | h | h
  · exact Or.inr (Or.inl h)
  · rcases Nat.le_total r1.id r2.id with hid | hid
    · exact Or.inr (Or.inr ⟨(String.ext h).symm, hid⟩)
    · exact Or.inl (Or.inr ⟨String.ext h, hid⟩)
  · exact Or.inl (Or.inl h)

instance : IsTrans Row rowLe := by
  constructor
  intro a b c hab hbc
  rcases hab with hab | ⟨hdab, hiab⟩
  · rcases hbc with hbc | ⟨hdbc, hibc⟩
    · exact Or.inl (lt_trans hbc hab)
    · exact Or.inl (hdbc ▸ hab)
  · rcases hbc with hbc | ⟨hdbc, hibc⟩
    · exact Or.inl (hdab ▸ hbc)
    · exact Or.inr ⟨hdab.trans hdbc, le_trans hibc hiab⟩

instance : IsTotal Bucket bucketLe :=
  ⟨fun b1 b2 => (le_total b2.total_amount b1.total_amount).imp id id⟩

instance : IsTrans Bucket bucketLe :=
  ⟨fun _ _ _ hab hbc => le_trans hbc hab⟩

/-! ### Basic state-preservation lemmas -/

theorem ensure_db_rows (db : DB) : (ensure_db db).rows = db.rows := by
  unfold ensure_db; split <;> rfl

theorem ensure_db_nextId (db : DB) : (ensure_db db).nextId = db.nextId := by
  unfold ensure_db; split <;> rfl

theorem add_expense_fst_rows (db : DB) (d : String) (a : ℚ) (c sc n : String) :
    (add_expense db d a c sc n).1.rows =
      db.rows ++ [⟨db.nextId, d, a, c, sc, n⟩] := by
  simp [add_expense, ensure_db_rows, ensure_db_nextId]

theorem add_expense_snd (db : DB) (d : String) (a : ℚ) (c sc n : String) :
    (add_expense db d a c sc n).2 = db.nextId := by
  simp [add_expense, ensure_db_nextId]

theorem add_expense_fst_nextId (db : DB) (d : String) (a : ℚ) (c sc n : String) :
    (add_expense db d a c sc n).1.nextId = db.nextId + 1 := by
  simp [add_expense, ensure_db_nextId]

theorem list_expenses_snd (db : DB) (s e : String) :
    (list_expenses db s e).2 =
      (db.rows.filter (inRange s e)).insertionSort rowLe := by
  simp [list_expenses, ensure_db_rows]

theorem inRange_iff (s e : String) (r : Row) :
    inRange s e r = true ↔ lexLE s r.date ∧ lexLE r.date e := by
  simp [inRange]

theorem summarize_snd (db : DB) (s e : String) (cat : Option String) :
    (summarize db s e cat).2 =
      (let base := db.rows.filter (inRange s e)
       let matching :=
         if categoryTruthy cat then
           base.filter (fun r => r.category == cat.getD "")
         else base
       let cats := (matching.map (fun r => r.category)).dedup
       (cats.map (fun c =>
         let rs := matching.filter (fun r => r.category == c)
         Bucket.mk c ((rs.map (fun r => r.amount)).sum)
           rs.length)).insertionSort bucketLe) := by
  simp only [summarize, ensure_db_rows]

/-- A small concrete database used to instantiate theorems with hypotheses:
two rows sharing a date, ids 1 and 2, counter at 3. -/
def sampleDB : DB :=
  ⟨true, some expensesTableDef,
   [⟨1, "2024-01-01", 5, "Travel", "", ""⟩,
    ⟨2, "2024-01-01", 3, "Food & Dining", "", ""⟩],
   3⟩

/-! ### The claims -/

/-- C2: the operation `list_expenses` returns exactly the rows whose date lies lexically
within `[startDate, endDate]` inclusive — the output is a permutation of the
rows passing the range filter, and a row appears in the output iff it is
stored and its date is inside the bounds. -/
theorem listExpenses_range_exact (db : DB) (s e : String) :
    (list_expenses db s e).2.Perm (db.rows.filter (inRange s e)) ∧
    ∀ r : Row, r ∈ (list_expenses db s e).2 ↔
      r ∈ db.rows ∧ lexLE s r.date ∧ lexLE r.date e := by
  rw [list_expenses_snd]
  refine ⟨List.perm_insertionSort _ _, fun r => ?_⟩
  rw [List.mem_insertionSort, List.mem_filter, inRange_iff]

/-- C6: when `startDate` is lexically greater than `endDate`, both
`list_expenses` and `summarize` return the empty sequence (and, being total
functions of the state, signal no error). -/
theorem empty_range_empty_results (db : DB) (s e : String)
    (h : lexLT e s) (cat : Option String) :
    (list_expenses db s e).2 = [] ∧ (summarize db s e cat).2 = [] := by
  have hfilter : db.rows.filter (inRange s e) = [] := by
    rw [List.filter_eq_nil_iff]
    intro r _ hr
    rw [inRange_iff] at hr
    exact absurd (le_trans hr.1 hr.2) (not_le_of_lt h)
  constructor
  · rw [list_expenses_snd, hfilter]
    rfl
  · rw [summarize_snd]
    simp only [hfilter, List.filter_nil]
    split <;> rfl

theorem empty_range_empty_results_witness :
    (list_expenses sampleDB "2024-02-01" "2024-01-31").2 = [] ∧
    (summarize sampleDB "2024-02-01" "2024-01-31" none).2 = [] :=
  empty_range_empty_results sampleDB "2024-02-01" "2024-01-31" (by decide) none

/-- C1: after `add_expense` with defaulted `subcategory`/`note`, any
`list_expenses` whose range contains the inserted date returns exactly one
row carrying the returned id, and that row has the inserted date, amount and
category and empty `subcategory`/`note`. -/
theorem addExpense_insert_then_read (db : DB) (hwf : WF db)
    (d : String) (a : ℚ) (c lo hi : String)
    (h1 : lexLE lo d) (h2 : lexLE d hi) :
    ((list_expenses (add_expense db d a c "" "").1 lo hi).2).count
        ⟨(add_expense db d a c "" "").2, d, a, c, "", ""⟩ = 1 ∧
    ∀ r ∈ (list_expenses (add_expense db d a c "" "").1 lo hi).2,
      r.id = (add_expense db d a c "" "").2 →
        r = ⟨(add_expense db d a c "" "").2, d, a, c, "", ""⟩ := by
  simp only [add_expense_snd, list_expenses_snd, add_expense_fst_rows]
  have hnew : inRange lo hi ⟨db.nextId, d, a, c, "", ""⟩ = true := by
    rw [inRange_iff]
    exact ⟨h1, h2⟩
  have hperm := List.perm_insertionSort rowLe
    ((db.rows ++ ([⟨db.nextId, d, a, c, "", ""⟩] : List Row)).filter
      (inRange lo hi))
  constructor
  · rw [hperm.count_eq, List.filter_append, List.count_append]
    have hzero :
        (db.rows.filter (inRange lo hi)).count
          (⟨db.nextId, d, a, c, "", ""⟩ : Row) = 0 := by
      rw [List.count_eq_zero]
      intro hmem
      have := hwf.1 _ (List.mem_of_mem_filter hmem)
      simp at this
    rw [hzero]
    simp [hnew]
  · intro r hr hid
    rw [List.mem_insertionSort, List.filter_append, List.mem_append] at hr
    rcases hr with hr | hr
    · have := hwf.1 _ (List.mem_of_mem_filter hr)
      rw [hid] at this
      exact absurd this (lt_irrefl _)
    · have := List.mem_of_mem_filter hr
      simpa using this

theorem addExpense_insert_then_read_witness :
    ((list_expenses
        (add_expense sampleDB "2024-01-05" (25/2) "Food & Dining" "" "").1
        "2024-01-01" "2024-01-31").2).count
      ⟨(add_expense sampleDB "2024-01-05" (25/2) "Food & Dining" "" "").2,
        "2024-01-05", 25/2, "Food & Dining", "", ""⟩ = 1 :=
  (addExpense_insert_then_read sampleDB (by decide) "2024-01-05" (25/2)
    "Food & Dining" "2024-01-01" "2024-01-31" (by decide) (by decide)).1

/-- C3: the sequence returned by `list_expenses` is sorted by date
descending, ties broken by id descending: whenever `r1` appears before `r2`,
either `r1`'s date is lexically greater, or the dates are equal and `r1`'s
id is strictly greater. -/
theorem listExpenses_sorted (db : DB) (lo hi : String) (hwf : WF db) :
    ((list_expenses db lo hi).2).Pairwise
      (fun r1 r2 => lexLT r2.date r1.date ∨
        (r1.date = r2.date ∧ r2.id < r1.id)) := by
  rw [list_expenses_snd]
  have hsorted :
      ((db.rows.filter (inRange lo hi)).insertionSort rowLe).Pairwise rowLe :=
    List.sorted_insertionSort rowLe _
  have hne :
      ((db.rows.filter (inRange lo hi)).insertionSort rowLe).Pairwise
        (fun r1 r2 => r1.id ≠ r2.id) := by
    have h1 : (db.rows.filter (inRange lo hi)).Pairwise
        (fun r1 r2 => r1.id ≠ r2.id) :=
      List.Pairwise.sublist (List.filter_sublist _) hwf.2
    exact ((List.perm_insertionSort rowLe _).pairwise_iff
      (fun h => Ne.symm h)).mpr h1
  refine (hsorted.and hne).imp ?_
  rintro a b ⟨hle, hab⟩
  rcases hle with hlt | ⟨hd, hid⟩
  · exact Or.inl hlt
  · exact Or.inr ⟨hd, lt_of_le_of_ne hid (Ne.symm hab)⟩

theorem listExpenses_sorted_witness :
    ((list_expenses sampleDB "2024-01-01" "2024-01-31").2).Pairwise
      (fun r1 r2 => lexLT r2.date r1.date ∨
        (r1.date = r2.date ∧ r2.id < r1.id)) :=
  listExpenses_sorted sampleDB "2024-01-01" "2024-01-31" (by decide)

/-- C10: passing the empty string as the `category` argument of `summarize`
applies no filter at all (Python's `if category:` treats `""` as falsy): the
call is identical, state and output, to a call with `category` absent. -/
theorem summarize_empty_string_no_filter (db : DB) (s e : String) :
    summarize db s e (some "") = summarize db s e none := by
  simp [summarize, categoryTruthy]

/-- C9: the value `debug_db_info().total_rows` equals the length of the sequence
returned by a `list_expenses` call whose date range covers every stored
row. -/
theorem debugInfo_totalRows_eq_full_listing (db : DB) (lo hi : String)
    (hcover : ∀ r ∈ db.rows, lexLE lo r.date ∧ lexLE r.date hi) :
    (debug_db_info db).2.total_rows = ((list_expenses db lo hi).2).length := by
  have hfilter : db.rows.filter (inRange lo hi) = db.rows :=
    List.filter_eq_self.mpr fun r hr => (inRange_iff lo hi r).mpr (hcover r hr)
  rw [list_expenses_snd, hfilter, List.length_insertionSort]
  simp [debug_db_info, ensure_db_rows]

theorem debugInfo_totalRows_eq_full_listing_witness :
    (debug_db_info sampleDB).2.total_rows =
      ((list_expenses sampleDB "2024-01-01" "2024-01-31").2).length :=
  debugInfo_totalRows_eq_full_listing sampleDB "2024-01-01" "2024-01-31"
    (by decide)

theorem ensure_db_ensure_db (db : DB) :
    ensure_db (ensure_db db) = ensure_db db := by
  by_cases h : db.dbInitialized <;> simp [ensure_db, h]

theorem add_expense_fst_schema (db : DB) (d : String) (a : ℚ)
    (c sc nt : String) :
    (add_expense db d a c sc nt).1.schema = (ensure_db db).schema := by
  simp [add_expense]

theorem list_expenses_fst (db : DB) (s e : String) :
    (list_expenses db s e).1 = ensure_db db := rfl

theorem summarize_fst (db : DB) (s e : String) (cat : Option String) :
    (summarize db s e cat).1 = ensure_db db := rfl

theorem debug_db_info_fst (db : DB) : (debug_db_info db).1 = ensure_db db :=
  rfl

/-- C7: schema initialization is idempotent — `N ≥ 1` calls of `ensure_db`
equal a single call; after it the single table slot is populated; an already
existing table definition is left unchanged (`CREATE TABLE IF NOT EXISTS`);
when the initialized flag is already set the call is a complete no-op; and
every other operation leaves the schema exactly as `ensure_db` established
it, so any interleaving preserves the one table definition. The hypothesis
records the program invariant that the flag is only set after the table was
created. -/
theorem ensureSchema_idempotent (db : DB) (n : Nat)
    (hinv : db.dbInitialized = true → db.schema.isSome) (hn : 1 ≤ n) :
    ensure_db^[n] db = ensure_db db ∧
    ((ensure_db db).schema).isSome ∧
    (∀ d, db.schema = some d → (ensure_db db).schema = some d) ∧
    (db.dbInitialized = true → ensure_db db = db) ∧
    (∀ d a c sc nt,
      (add_expense db d a c sc nt).1.schema = (ensure_db db).schema) ∧
    (∀ s e, (list_expenses db s e).1.schema = (ensure_db db).schema) ∧
    (∀ s e cat, (summarize db s e cat).1.schema = (ensure_db db).schema) ∧
    (debug_db_info db).1.schema = (ensure_db db).schema := by
  obtain ⟨m, rfl⟩ : ∃ m, n = m + 1 := ⟨n - 1, by omega⟩
  refine ⟨?_, ?_, ?_, ?_, ?_, ?_, ?_, ?_⟩
  · clear hn
    induction m with
    | zero => rfl
    | succ k ih =>
      rw [Function.iterate_succ_apply', ih, ensure_db_ensure_db]
  · by_cases h : db.dbInitialized
    · simpa [ensure_db, h] using hinv h
    · simp [ensure_db, h]
  · intro d hd
    by_cases h : db.dbInitialized <;> simp [ensure_db, h, hd]
  · intro h
    simp [ensure_db, h]
  · intro d a c sc nt
    exact add_expense_fst_schema db d a c sc nt
  · intro s e
    rw [list_expenses_fst]
  · intro s e cat
    rw [summarize_fst]
  · rw [debug_db_info_fst]

theorem ensureSchema_idempotent_witness :
    ensure_db^[2] DB.empty = ensure_db DB.empty :=
  (ensureSchema_idempotent DB.empty 2 (by decide) (by decide)).1

/-- The rows of the given category whose date lies in the range — the
reference predicate the spec describes a `summarize` bucket by. -/
def rowsInRangeWithCat (db : DB) (lo hi c : String) : List Row :=
  db.rows.filter (fun r => inRange lo hi r && r.category == c)

theorem summarize_none_snd (db : DB) (lo hi : String) :
    (summarize db lo hi none).2 =
      (((db.rows.filter (inRange lo hi)).map (fun r => r.category)).dedup.map
        (fun c =>
          Bucket.mk c
            ((((db.rows.filter (inRange lo hi)).filter
                (fun r => r.category == c)).map (fun r => r.amount)).sum)
            (((db.rows.filter (inRange lo hi)).filter
                (fun r => r.category == c)).length))).insertionSort
        bucketLe := by
  simp [summarize, ensure_db_rows, categoryTruthy]

theorem rowsInRangeWithCat_eq (db : DB) (lo hi c : String) :
    rowsInRangeWithCat db lo hi c =
      (db.rows.filter (inRange lo hi)).filter (fun r => r.category == c) := by
  rw [rowsInRangeWithCat, List.filter_filter]
  exact (List.filter_congr fun r _ => Bool.and_comm _ _).symm

/-- C4: in an unfiltered `summarize`, every bucket's `total_amount` is the
sum of `amount` over the rows of that category inside the date range and its
`count` is the number of such rows (hence a category with zero matching rows
never yields a bucket, as every bucket has positive count); buckets are
ordered by `total_amount` descending. -/
theorem summarize_buckets_correct (db : DB) (lo hi : String) :
    (∀ bk ∈ (summarize db lo hi none).2,
        bk.total_amount =
          ((rowsInRangeWithCat db lo hi bk.category).map
            (fun r => r.amount)).sum ∧
        bk.count = (rowsInRangeWithCat db lo hi bk.category).length ∧
        0 < bk.count) ∧
    ((summarize db lo hi none).2).Pairwise
      (fun b1 b2 => b2.total_amount ≤ b1.total_amount) := by
  constructor
  · intro bk hbk
    rw [summarize_none_snd, List.mem_insertionSort, List.mem_map] at hbk
    obtain ⟨c, hc, rfl⟩ := hbk
    rw [List.mem_dedup, List.mem_map] at hc
    obtain ⟨r, hr, hrc⟩ := hc
    refine ⟨by rw [rowsInRangeWithCat_eq], by rw [rowsInRangeWithCat_eq], ?_⟩
    exact List.length_pos_of_mem
      (List.mem_filter.mpr ⟨hr, by simp [hrc]⟩)
  · rw [summarize_none_snd]
    exact (List.sorted_insertionSort bucketLe _).imp fun h => h

/-- A one-row database: a single `Food & Dining` expense inside January
2024, counter at 2. -/
def oneRowDB : DB :=
  ⟨true, some expensesTableDef,
   [⟨1, "2024-01-05", 5, "Food & Dining", "", ""⟩], 2⟩

/-- C5 counterexample: with the empty string supplied as the `category`
filter, `summarize` does not behave as "filter rows to exact matches first".
No stored row has category `""` — so the claim predicts an empty result —
yet the result is nonempty, because Python's `if category:` treats `""` as
falsy and applies no filter. -/
theorem summarize_empty_category_filter_counterexample :
    (∀ r ∈ oneRowDB.rows, r.category ≠ "") ∧
    (summarize oneRowDB "2024-01-01" "2024-01-31" (some "")).2 ≠ [] := by
  decide

theorem summarize_some_snd (db : DB) (lo hi c : String) (hc : c ≠ "") :
    (summarize db lo hi (some c)).2 =
      ((((db.rows.filter (inRange lo hi)).filter
          (fun r => r.category == c)).map (fun r => r.category)).dedup.map
        (fun g =>
          Bucket.mk g
            (((((db.rows.filter (inRange lo hi)).filter
                (fun r => r.category == c)).filter
                  (fun r => r.category == g)).map (fun r => r.amount)).sum)
            ((((db.rows.filter (inRange lo hi)).filter
                (fun r => r.category == c)).filter
                  (fun r => r.category == g)).length))).insertionSort
        bucketLe := by
  have ht : categoryTruthy (some c) = true := by
    simp [categoryTruthy, hc]
  simp [summarize, ensure_db_rows, ht]

/-- C5 (amended: for every *nonempty* supplied category string — the empty
string is treated as no filter, see the counterexample): `summarize` with a
category filter returns only that category's bucket, equals `summarize`
computed on the ledger pre-filtered to exact matches of the category, and
returns the empty sequence when no row in the range has that exact
category. -/
theorem summarize_category_filter (db : DB) (lo hi c : String)
    (hc : c ≠ "") :
    (∀ bk ∈ (summarize db lo hi (some c)).2, bk.category = c) ∧
    (summarize db lo hi (some c)).2 =
      (summarize { db with rows := db.rows.filter (fun r => r.category == c) }
        lo hi none).2 ∧
    ((∀ r ∈ db.rows, inRange lo hi r = true → r.category ≠ c) →
      (summarize db lo hi (some c)).2 = []) := by
  refine ⟨?_, ?_, ?_⟩
  · intro bk hbk
    rw [summarize_some_snd db lo hi c hc, List.mem_insertionSort,
      List.mem_map] at hbk
    obtain ⟨g, hg, rfl⟩ := hbk
    rw [List.mem_dedup, List.mem_map] at hg
    obtain ⟨r, hr, hrg⟩ := hg
    have := (List.mem_filter.mp hr).2
    rw [beq_iff_eq] at this
    exact hrg ▸ this
  · rw [summarize_some_snd db lo hi c hc, summarize_none_snd]
    rw [List.filter_comm]
  · intro hnone
    have hnil :
        (db.rows.filter (inRange lo hi)).filter (fun r => r.category == c)
          = [] := by
      rw [List.filter_eq_nil_iff]
      intro r hr
      have hmem := List.mem_filter.mp hr
      simpa using hnone r hmem.1 hmem.2
    rw [summarize_some_snd db lo hi c hc, hnil]
    rfl

theorem summarize_category_filter_witness :
    (summarize sampleDB "2024-01-01" "2024-01-31" (some "Travel")).2 =
      (summarize
        { sampleDB with
          rows := sampleDB.rows.filter (fun r => r.category == "Travel") }
        "2024-01-01" "2024-01-31" none).2 :=
  (summarize_category_filter sampleDB "2024-01-01" "2024-01-31" "Travel"
    (by decide)).2.1

/-- Run a sequence of `add_expense` calls
(`date, amount, category, subcategory, note` per call), collecting the
returned ids. -/
def runAdds : DB → List (String × ℚ × String × String × String) →
    DB × List Nat
  | db, [] => (db, [])
  | db, (d, a, c, sc, n) :: rest =>
      let p := add_expense db d a c sc n
      let q := runAdds p.1 rest
      (q.1, p.2 :: q.2)

theorem add_expense_WF (db : DB) (d : String) (a : ℚ) (c sc n : String) :
    WF db → WF (add_expense db d a c sc n).1 := by
  intro h
  rw [WF, add_expense_fst_rows, add_expense_fst_nextId]
  constructor
  · intro r hr
    rcases List.mem_append.mp hr with hr | hr
    · exact lt_trans (h.1 r hr) (Nat.lt_succ_self _)
    · simp at hr
      rw [hr]
      exact Nat.lt_succ_self _
  · rw [List.pairwise_append]
    refine ⟨h.2, List.pairwise_singleton _ _, ?_⟩
    intro r1 hr1 r2 hr2
    simp at hr2
    rw [hr2]
    exact Nat.ne_of_lt (h.1 r1 hr1)

theorem runAdds_spec (ins : List (String × ℚ × String × String × String)) :
    ∀ db : DB,
      (runAdds db ins).2 = List.range' db.nextId ins.length ∧
      (runAdds db ins).1.nextId = db.nextId + ins.length ∧
      (∃ newRows : List Row,
        (runAdds db ins).1.rows = db.rows ++ newRows ∧
        newRows.map (fun r => r.id) = (runAdds db ins).2) ∧
      (WF db → WF (runAdds db ins).1) := by
  induction ins with
  | nil =>
    intro db
    exact ⟨rfl, by simp [runAdds], ⟨[], by simp [runAdds], rfl⟩, fun h => h⟩
  | cons hd rest ih =>
    intro db
    obtain ⟨d, a, c, sc, n⟩ := hd
    obtain ⟨ih1, ih2, ⟨newRows, ihr1, ihr2⟩, ihwf⟩ :=
      ih (add_expense db d a c sc n).1
    have hids : (runAdds db ((d, a, c, sc, n) :: rest)).2 =
        db.nextId :: (runAdds (add_expense db d a c sc n).1 rest).2 := by
      simp [runAdds, add_expense_snd]
    have hfst : (runAdds db ((d, a, c, sc, n) :: rest)).1 =
        (runAdds (add_expense db d a c sc n).1 rest).1 := rfl
    refine ⟨?_, ?_, ?_, ?_⟩
    · rw [hids, ih1, add_expense_fst_nextId, List.length_cons,
        List.range'_succ]
    · rw [hfst, ih2, add_expense_fst_nextId, List.length_cons]
      omega
    · refine ⟨(⟨db.nextId, d, a, c, sc, n⟩ : Row) :: newRows, ?_, ?_⟩
      · rw [hfst, ihr1, add_expense_fst_rows]
        simp
      · rw [hids, List.map_cons, ihr2]
    · intro hwf
      rw [hfst]
      exact ihwf (add_expense_WF db d a c sc n hwf)

/-- C8: across any sequence of `add_expense` calls, the returned ids are
exactly the consecutive values of the `AUTOINCREMENT` counter — each call
returns the id of the row it inserted, ids are strictly increasing (hence
unique and never reused), previously stored rows (and their ids) are left
unchanged, well-formedness is preserved, and no read operation mutates the
stored rows. -/
theorem addExpense_id_invariants (db : DB)
    (ins : List (String × ℚ × String × String × String)) :
    (runAdds db ins).2 = List.range' db.nextId ins.length ∧
    ((runAdds db ins).2).Pairwise (· < ·) ∧
    (∃ newRows : List Row,
      (runAdds db ins).1.rows = db.rows ++ newRows ∧
      newRows.map (fun r => r.id) = (runAdds db ins).2) ∧
    (WF db → WF (runAdds db ins).1) ∧
    (∀ s e, (list_expenses db s e).1.rows = db.rows) ∧
    (∀ s e cat, (summarize db s e cat).1.rows = db.rows) ∧
    (debug_db_info db).1.rows = db.rows := by
  obtain ⟨h1, _, h3, h4⟩ := runAdds_spec ins db
  refine ⟨h1, ?_, h3, h4, ?_, ?_, ?_⟩
  · rw [h1]
    exact List.pairwise_lt_range' db.nextId ins.length
  · intro s e
    rw [list_expenses_fst, ensure_db_rows]
  · intro s e cat
    rw [summarize_fst, ensure_db_rows]
  · rw [debug_db_info_fst, ensure_db_rows]

theorem addExpense_id_invariants_witness :
    (runAdds sampleDB
      [("2024-01-05", 25/2, "Food & Dining", "", ""),
       ("2024-01-06", 3, "Travel", "", "")]).2 = List.range' 3 2 :=
  (addExpense_id_invariants sampleDB
    [("2024-01-05", 25/2, "Food & Dining", "", ""),
     ("2024-01-06", 3, "Travel", "", "")]).1

end ExpenseTracker
